import Mathlib

/-!
Verification of the villus subscription-forwarding plugin
(`packages/villus/src/handleSubscriptions.ts`) and of the specified
operation-fingerprinting and subscription-consumer contracts.

The plugin source is embedded shallowly: the handler's observable effects
(forwarder invocations, `useResult` calls, a thrown error, the operation seen by
the rest of the chain) are recorded in an explicit outcome record.  Parts of the
repository that the claims depend on but whose code is not present under the
sources (the query-normalization utility, the operation fingerprint, and the
`useSubscription` consumer with its pause switch) are modelled from the spec and
marked as such on their definitions.
-/

/- ## JSON-like variable values -/

/-- A JSON-like value, the shape of GraphQL variable payloads. -/
inductive JsonVal where
  | null
  | bool (b : Bool)
  | num (n : Int)
  | str (s : String)
  | arr (elems : List JsonVal)
  | obj (fields : List (String × JsonVal))

/-- First value bound to key `k` in an association list of fields. -/
def lookupKey (k : String) : List (String × JsonVal) → Option JsonVal
  | [] => none
  | (k', v) :: rest => if k = k' then some v else lookupKey k rest

/-- Boolean check that no key occurs twice in a field list. -/
def nodupKeysB : List (String × JsonVal) → Bool
  | [] => true
  | p :: rest => rest.all (fun q => !(q.1 == p.1)) && nodupKeysB rest

/-- Keys of a field list, in order. -/
def keysOf (fs : List (String × JsonVal)) : List String :=
  fs.map Prod.fst

mutual

/-- Deep (structural-up-to-object-key-order) equality of JSON values: objects
are compared as finite maps, so the insertion order of keys is irrelevant at
every nesting depth. -/
def deepEq : JsonVal → JsonVal → Bool
  | .null, .null => true
  | .bool a, .bool b => a == b
  | .num a, .num b => a == b
  | .str a, .str b => a == b
  | .arr xs, .arr ys => deepEqElems xs ys
  | .obj fs, .obj gs =>
    (fs.length == gs.length) && nodupKeysB fs && nodupKeysB gs && deepEqFields fs gs
  | _, _ => false

/-- Pointwise deep equality of array elements. -/
def deepEqElems : List JsonVal → List JsonVal → Bool
  | [], [] => true
  | x :: xs, y :: ys => deepEq x y && deepEqElems xs ys
  | _, _ => false

/-- Every field of the first list is bound, deep-equally, in the second. -/
def deepEqFields : List (String × JsonVal) → List (String × JsonVal) → Bool
  | [], _ => true
  | (k, v) :: rest, gs =>
    (match lookupKey k gs with
     | some w => deepEq v w
     | none => false) && deepEqFields rest gs

end

/-- Insert a field into a list sorted by key (lexicographic string order). -/
def insertFieldSorted (p : String × JsonVal) :
    List (String × JsonVal) → List (String × JsonVal)
  | [] => [p]
  | q :: rest => if p.1 ≤ q.1 then p :: q :: rest else q :: insertFieldSorted p rest

/-- Insertion sort of object fields by key. -/
def sortFields : List (String × JsonVal) → List (String × JsonVal)
  | [] => []
  | p :: rest => insertFieldSorted p (sortFields rest)

mutual

/-- Modelled from the spec: canonical key order for serialization — every
object's fields are recursively put into lexicographically sorted key order
(the serializer of the fingerprint described in section 4.1 of the spec;
its code is not among the provided sources). -/
def canon : JsonVal → JsonVal
  | .null => .null
  | .bool b => .bool b
  | .num n => .num n
  | .str s => .str s
  | .arr xs => .arr (canonElems xs)
  | .obj fs => .obj (sortFields (canonFields fs))

/-- Canonicalize each array element. -/
def canonElems : List JsonVal → List JsonVal
  | [] => []
  | x :: xs => canon x :: canonElems xs

/-- Canonicalize each field value, keeping keys and their order. -/
def canonFields : List (String × JsonVal) → List (String × JsonVal)
  | [] => []
  | (k, v) :: fs => (k, canon v) :: canonFields fs

end

mutual

/-- Deterministic textual serialization of a JSON value (object fields are
emitted in the order they appear; canonicalize with `canon` first). -/
def serialize : JsonVal → String
  | .null => "null"
  | .bool b => if b then "true" else "false"
  | .num n => toString n
  | .str s => "\"" ++ s ++ "\""
  | .arr xs => "[" ++ serializeElems xs ++ "]"
  | .obj fs => "\x7b" ++ serializeFields fs ++ "\x7d"

/-- Comma-separated serialization of array elements. -/
def serializeElems : List JsonVal → String
  | [] => ""
  | [x] => serialize x
  | x :: xs => serialize x ++ "," ++ serializeElems xs

/-- Comma-separated serialization of object fields. -/
def serializeFields : List (String × JsonVal) → String
  | [] => ""
  | [(k, v)] => "\"" ++ k ++ "\":" ++ serialize v
  | (k, v) :: fs => "\"" ++ k ++ "\":" ++ serialize v ++ "," ++ serializeFields fs

end

/- ## Query normalization (spec-modelled utility) -/

/-- Split a character stream into maximal whitespace-free words; `acc` holds
the current word, reversed. -/
def wordsAux : List Char → List Char → List (List Char)
  | [], acc => if acc.isEmpty then [] else [acc.reverse]
  | c :: cs, acc =>
    if c.isWhitespace then
      if acc.isEmpty then wordsAux cs [] else acc.reverse :: wordsAux cs []
    else wordsAux cs (c :: acc)

/-- Join words with single spaces. -/
def joinWords : List (List Char) → List Char
  | [] => []
  | [w] => w
  | w :: ws => w ++ ' ' :: joinWords ws

/-- Modelled from the spec: the shared query-normalization utility
(`normalizeQuery` of the shared utils package, not among the provided sources).
Spec section 3: normalized operation text is the whitespace-collapsed query
string; a query that is empty after normalization is rejected. -/
def normalizeQuery (query : String) : String :=
  String.mk (joinWords (wordsAux query.data []))

/- ## Operation model and fingerprint -/

/-- GraphQL operation kinds. -/
inductive OpType where
  | query
  | mutation
  | subscription
deriving DecidableEq, Repr

/-- Cache policies (spec section 3). -/
inductive CachePolicy where
  | cacheFirst
  | networkOnly
  | cacheAndNetwork
  | cacheOnly
deriving DecidableEq, Repr

/-- An operation as seen by a client plugin: the request description plus its
derived identity fields (spec section 3, `ClientPluginOperation` in the
source's types).  The source's `variables` field is named `vars` here because
`variables` is reserved. -/
structure Operation where
  key : Nat
  type : OpType
  query : String
  vars : List (String × JsonVal)
  cachePolicy : CachePolicy
  tags : List String

/-- Modelled from the spec: a strong deterministic string hash (spec section
4.1 leaves the concrete hash open; only determinism matters to the claims).
Arithmetic is truncated to 32 bits. -/
def stableHash (s : String) : Nat :=
  s.data.foldl (fun h c => (h * 31 + c.toNat) % 4294967296) 5381

/-- Modelled from the spec: serialization of the variables mapping in
canonical (recursively sorted) key order. -/
def serializeVariables (vs : List (String × JsonVal)) : String :=
  serialize (canon (JsonVal.obj vs))

/-- Modelled from the spec: the operation fingerprint (cache/dedup key) — the
hash of the normalized query text concatenated with the canonically
serialized variables (spec section 4.1; the fingerprint code is not among the
provided sources). -/
def fingerprint (op : Operation) : Nat :=
  stableHash (normalizeQuery op.query ++ "|" ++ serializeVariables op.vars)

/-- Deep equality of two variables mappings, insensitive to key insertion
order at every depth. -/
def variablesDeepEq (vs₁ vs₂ : List (String × JsonVal)) : Bool :=
  deepEq (JsonVal.obj vs₁) (JsonVal.obj vs₂)

/- ## The subscription-forwarding plugin (embedded from the source) -/

/-- A subscription forwarder: a function from the (normalized) operation to a
push-based result stream, the stream being abstract here. -/
def SubscriptionForwarder (S : Type) : Type :=
  Operation → S

/-- The context a plugin is invoked with: the in-flight operation plus
request context (headers and the like) that this plugin never reads. -/
structure ClientPluginContext where
  operation : Operation
  opContext : List (String × String)

/-- The observable effects of one handler invocation: the arguments the
forwarder was called with, the `useResult(result, terminal)` calls made, the
error thrown (if any), and the operation as the rest of the pipeline sees it
after the handler returns. -/
structure HandlerOutcome (S : Type) where
  forwarderCalls : List Operation
  resultCalls : List (S × Bool)
  raised : Option String
  operationAfter : Operation

/-- The dispatcher lets the chain continue past a plugin exactly when the
plugin returned normally without supplying a terminal result. -/
def HandlerOutcome.continuesChain (o : HandlerOutcome S) : Bool :=
  o.raised.isNone && !(o.resultCalls.any (fun c => c.2))

/-- Message of the error thrown when a subscription is dispatched with no
forwarder registered (the spec's ConfigurationError). -/
def configurationErrorMessage : String := "No subscription forwarder was set."

/-- Message of the error thrown when the query is empty after normalization
(the spec's ValidationError). -/
def validationErrorMessage : String := "A query must be provided."

/-- Shallow embedding of the handler closure returned by
`handleSubscriptions` (`subscriptionsHandlerPlugin` in the source):

  - returns immediately when the operation is not a subscription;
  - throws `No subscription forwarder was set.` when no forwarder was given;
  - throws `A query must be provided.` when the query normalizes to empty;
  - otherwise calls the forwarder once with a copy of the operation whose
    `query` is the normalized text, and supplies the resulting stream through
    `useResult(·, true)` exactly once. -/
def subscriptionsHandlerPlugin (forward : Option (SubscriptionForwarder S))
    (ctx : ClientPluginContext) : HandlerOutcome S :=
  let operation := ctx.operation
  if operation.type ≠ OpType.subscription then
    { forwarderCalls := [], resultCalls := [], raised := none,
      operationAfter := operation }
  else
    match forward with
    | none =>
      { forwarderCalls := [], resultCalls := [],
        raised := some configurationErrorMessage, operationAfter := operation }
    | some forward =>
      let normalizedQuery := normalizeQuery operation.query
      if normalizedQuery = "" then
        { forwarderCalls := [], resultCalls := [],
          raised := some validationErrorMessage, operationAfter := operation }
      else
        let forwardedOperation := { operation with query := normalizedQuery }
        { forwarderCalls := [forwardedOperation],
          resultCalls := [(forward forwardedOperation, true)],
          raised := none, operationAfter := operation }

/-- Shallow embedding of `handleSubscriptions`: plugin construction.  The
source body only captures the forwarder and returns the handler closure, so
construction is infallible; fallibility is kept in the type to state that no
error is raised at construction time. -/
def handleSubscriptions (forwarder : Option (SubscriptionForwarder S)) :
    Except String (ClientPluginContext → HandlerOutcome S) :=
  let forward := forwarder
  Except.ok (fun ctx => subscriptionsHandlerPlugin forward ctx)

/- ## The subscription consumer with its pause switch (spec-modelled) -/

/-- Modelled from the spec: the observable state of one `useSubscription`
consumer (not among the provided sources; spec sections 4.5, 5 and 8 and the
subscriptions guide): the aggregated `data` value (absent initially), the
pause switch, and whether the underlying stream has been unsubscribed. -/
structure SubscriptionState (D : Type) where
  data : Option D
  paused : Bool
  unsubscribed : Bool

/-- Events that can reach the consumer: an incoming forwarder message, the
pause switch being turned on or off, and an explicit unsubscribe. -/
inductive SubscriptionEvent (R : Type) where
  | message (response : R)
  | pause
  | resume
  | unsubscribe
deriving DecidableEq, Repr

/-- Modelled from the spec: one consumer transition.  While paused, incoming
values are ignored (not folded into `data`); pause and resume touch nothing
but the pause switch — in particular they never unsubscribe the underlying
stream; after an explicit unsubscribe no further reducer invocation happens;
otherwise an incoming message is folded into `data` with the caller-supplied
reducer, synchronously, in arrival order. -/
def subscriptionStep (reduce : Option D → R → D) (s : SubscriptionState D) :
    SubscriptionEvent R → SubscriptionState D
  | .message response =>
    if s.unsubscribed then s
    else if s.paused then s
    else { s with data := some (reduce s.data response) }
  | .pause => { s with paused := true }
  | .resume => { s with paused := false }
  | .unsubscribe => { s with unsubscribed := true }

/-- Run a consumer over a sequence of events. -/
def subscriptionRun (reduce : Option D → R → D) (s : SubscriptionState D)
    (events : List (SubscriptionEvent R)) : SubscriptionState D :=
  events.foldl (subscriptionStep reduce) s

/- ## Helper lemmas -/

theorem subscriptionRun_pause_resume_aux {D R : Type} (reduce : Option D → R → D) :
    ∀ (events : List (SubscriptionEvent R)) (s : SubscriptionState D),
      (∀ e ∈ events, e = SubscriptionEvent.pause ∨ e = SubscriptionEvent.resume) →
      (subscriptionRun reduce s events).data = s.data
      ∧ (subscriptionRun reduce s events).unsubscribed = s.unsubscribed := by
  intro events
  induction events with
  | nil => intro s _; exact ⟨rfl, rfl⟩
  | cons e rest ih =>
    intro s h
    have hrest : ∀ e' ∈ rest, e' = SubscriptionEvent.pause ∨ e' = SubscriptionEvent.resume :=
      fun e' h' => h e' (List.mem_cons_of_mem e h')
    rcases h e (List.mem_cons_self e rest) with he | he <;> subst he <;>
      exact ⟨(ih _ hrest).1, (ih _ hrest).2⟩

/- ## Claim theorems for the plugin -/

/-- C1: the subscription forwarding plugin is a chain terminal for subscription
operations: with a registered forwarder and a query that is non-empty after
normalization, it never lets the chain continue, raises nothing, and supplies
the forwarder's result stream as the operation's result exactly once (a single
terminal `useResult` call). -/
theorem subscription_plugin_is_chain_terminal {S : Type}
    (f : SubscriptionForwarder S) (ctx : ClientPluginContext)
    (hsub : ctx.operation.type = OpType.subscription)
    (hq : normalizeQuery ctx.operation.query ≠ "") :
    (subscriptionsHandlerPlugin (some f) ctx).continuesChain = false
    ∧ (subscriptionsHandlerPlugin (some f) ctx).raised = none
    ∧ (subscriptionsHandlerPlugin (some f) ctx).resultCalls =
        [(f { ctx.operation with query := normalizeQuery ctx.operation.query }, true)] := by
  simp [subscriptionsHandlerPlugin, HandlerOutcome.continuesChain, hsub, hq]

/-- Witness for C1 at a concrete subscription operation. -/
theorem subscription_plugin_is_chain_terminal_witness :
    normalizeQuery "subscription NewMessages" ≠ ""
    ∧ (subscriptionsHandlerPlugin (some (fun op => op.key))
        ⟨⟨7, OpType.subscription, "subscription NewMessages",
          [("id", JsonVal.num 1)], CachePolicy.networkOnly, []⟩,
         [("Authorization", "token")]⟩).continuesChain = false :=
  ⟨by decide,
   (subscription_plugin_is_chain_terminal (fun op => op.key)
     ⟨⟨7, OpType.subscription, "subscription NewMessages",
       [("id", JsonVal.num 1)], CachePolicy.networkOnly, []⟩,
      [("Authorization", "token")]⟩ rfl (by decide)).1⟩

/-- C2: dispatching a subscription with no forwarder fails with the
configuration error at dispatch time, while constructing the plugin with a
missing forwarder raises nothing (`handleSubscriptions` returns the handler). -/
theorem missing_forwarder_fails_at_dispatch_not_construction {S : Type}
    (ctx : ClientPluginContext)
    (hsub : ctx.operation.type = OpType.subscription) :
    ∃ plugin, handleSubscriptions (none : Option (SubscriptionForwarder S)) =
        Except.ok plugin
      ∧ (plugin ctx).raised = some configurationErrorMessage
      ∧ (plugin ctx).resultCalls = []
      ∧ (plugin ctx).forwarderCalls = [] := by
  refine ⟨fun c => subscriptionsHandlerPlugin none c, rfl, ?_, ?_, ?_⟩ <;>
    simp [subscriptionsHandlerPlugin, hsub]

/-- Witness for C2 at a concrete subscription operation. -/
theorem missing_forwarder_fails_at_dispatch_not_construction_witness :
    ∃ plugin, handleSubscriptions (none : Option (SubscriptionForwarder Nat)) =
        Except.ok plugin
      ∧ (plugin ⟨⟨3, OpType.subscription, "subscription NewMessages", [],
                  CachePolicy.networkOnly, []⟩, []⟩).raised =
          some configurationErrorMessage
      ∧ (plugin ⟨⟨3, OpType.subscription, "subscription NewMessages", [],
                  CachePolicy.networkOnly, []⟩, []⟩).resultCalls = []
      ∧ (plugin ⟨⟨3, OpType.subscription, "subscription NewMessages", [],
                  CachePolicy.networkOnly, []⟩, []⟩).forwarderCalls = [] :=
  missing_forwarder_fails_at_dispatch_not_construction
    ⟨⟨3, OpType.subscription, "subscription NewMessages", [],
      CachePolicy.networkOnly, []⟩, []⟩ rfl

/-- C3: a subscription whose query is empty after normalization fails
synchronously with the validation error; the forwarder is never invoked and no
result is supplied. -/
theorem empty_query_subscription_validation_error {S : Type}
    (f : SubscriptionForwarder S) (ctx : ClientPluginContext)
    (hsub : ctx.operation.type = OpType.subscription)
    (hq : normalizeQuery ctx.operation.query = "") :
    (subscriptionsHandlerPlugin (some f) ctx).raised = some validationErrorMessage
    ∧ (subscriptionsHandlerPlugin (some f) ctx).forwarderCalls = []
    ∧ (subscriptionsHandlerPlugin (some f) ctx).resultCalls = [] := by
  simp [subscriptionsHandlerPlugin, hsub, hq]

/-- Witness for C3 at a whitespace-only query. -/
theorem empty_query_subscription_validation_error_witness :
    normalizeQuery "   " = ""
    ∧ (subscriptionsHandlerPlugin (some (fun op => op.key))
        ⟨⟨1, OpType.subscription, "   ", [], CachePolicy.networkOnly, []⟩,
         []⟩).raised = some validationErrorMessage :=
  ⟨by decide,
   (empty_query_subscription_validation_error (fun op => op.key)
     ⟨⟨1, OpType.subscription, "   ", [], CachePolicy.networkOnly, []⟩, []⟩
     rfl (by decide)).1⟩

/-- C4: the forwarder receives a normalized operation — the query field is the
normalized text and every other field (variables, type, key, cache policy,
tags) equals the corresponding field of the dispatched operation. -/
theorem forwarder_receives_normalized_operation {S : Type}
    (f : SubscriptionForwarder S) (ctx : ClientPluginContext)
    (hsub : ctx.operation.type = OpType.subscription)
    (hq : normalizeQuery ctx.operation.query ≠ "") :
    (subscriptionsHandlerPlugin (some f) ctx).forwarderCalls =
      [{ ctx.operation with query := normalizeQuery ctx.operation.query }]
    ∧ ∀ fop ∈ (subscriptionsHandlerPlugin (some f) ctx).forwarderCalls,
        fop.query = normalizeQuery ctx.operation.query
        ∧ fop.type = ctx.operation.type
        ∧ fop.vars = ctx.operation.vars
        ∧ fop.key = ctx.operation.key
        ∧ fop.cachePolicy = ctx.operation.cachePolicy
        ∧ fop.tags = ctx.operation.tags := by
  simp [subscriptionsHandlerPlugin, hsub, hq]

/-- Witness for C4 at a concrete subscription operation with variables. -/
theorem forwarder_receives_normalized_operation_witness :
    normalizeQuery "subscription  OnMsg" ≠ ""
    ∧ (subscriptionsHandlerPlugin (some (fun op => op.key))
        ⟨⟨9, OpType.subscription, "subscription  OnMsg",
          [("room", JsonVal.str "a")], CachePolicy.networkOnly, ["live"]⟩,
         []⟩).forwarderCalls =
        [{ (⟨9, OpType.subscription, "subscription  OnMsg",
            [("room", JsonVal.str "a")], CachePolicy.networkOnly, ["live"]⟩ :
            Operation) with query := normalizeQuery "subscription  OnMsg" }] :=
  ⟨by decide,
   (forwarder_receives_normalized_operation (fun op => op.key)
     ⟨⟨9, OpType.subscription, "subscription  OnMsg",
       [("room", JsonVal.str "a")], CachePolicy.networkOnly, ["live"]⟩, []⟩
     rfl (by decide)).1⟩

/-- C7: the handler never mutates the dispatched operation — the operation the
rest of the pipeline sees equals the input — and any operation handed to the
forwarder is the fresh normalized copy, not the original written back. -/
theorem plugin_preserves_dispatched_operation {S : Type}
    (forward : Option (SubscriptionForwarder S)) (ctx : ClientPluginContext) :
    (subscriptionsHandlerPlugin forward ctx).operationAfter = ctx.operation
    ∧ ((subscriptionsHandlerPlugin forward ctx).forwarderCalls = []
       ∨ (subscriptionsHandlerPlugin forward ctx).forwarderCalls =
           [{ ctx.operation with query := normalizeQuery ctx.operation.query }]) := by
  by_cases ht : ctx.operation.type ≠ OpType.subscription
  · simp [subscriptionsHandlerPlugin, ht]
  · cases forward with
    | none => simp [subscriptionsHandlerPlugin, ht]
    | some f =>
      by_cases hqe : normalizeQuery ctx.operation.query = ""
      · simp [subscriptionsHandlerPlugin, ht, hqe]
      · simp [subscriptionsHandlerPlugin, ht, hqe]

/-- C8: for every non-subscription operation the plugin returns immediately —
no result, no forwarder call, no error — even with no forwarder registered and
whatever the query is, so control passes on to the rest of the chain. -/
theorem non_subscription_operations_pass_through {S : Type}
    (forward : Option (SubscriptionForwarder S)) (ctx : ClientPluginContext)
    (h : ctx.operation.type ≠ OpType.subscription) :
    (subscriptionsHandlerPlugin forward ctx).raised = none
    ∧ (subscriptionsHandlerPlugin forward ctx).resultCalls = []
    ∧ (subscriptionsHandlerPlugin forward ctx).forwarderCalls = []
    ∧ (subscriptionsHandlerPlugin forward ctx).continuesChain = true := by
  simp [subscriptionsHandlerPlugin, HandlerOutcome.continuesChain, h]

/-- Witness for C8: a query operation with no forwarder and an empty query
still passes through without raising. -/
theorem non_subscription_operations_pass_through_witness :
    (OpType.query ≠ OpType.subscription)
    ∧ (subscriptionsHandlerPlugin (none : Option (SubscriptionForwarder Nat))
        ⟨⟨2, OpType.query, "", [], CachePolicy.cacheFirst, []⟩, []⟩).raised = none
    ∧ (subscriptionsHandlerPlugin (none : Option (SubscriptionForwarder Nat))
        ⟨⟨2, OpType.query, "", [], CachePolicy.cacheFirst, []⟩, []⟩).continuesChain
        = true :=
  ⟨by decide,
   (non_subscription_operations_pass_through none
     ⟨⟨2, OpType.query, "", [], CachePolicy.cacheFirst, []⟩, []⟩ (by decide)).1,
   (non_subscription_operations_pass_through none
     ⟨⟨2, OpType.query, "", [], CachePolicy.cacheFirst, []⟩, []⟩ (by decide)).2.2.2⟩

/-- C9: when both failure conditions hold — no forwarder and a query that
normalizes to empty — the raised error is the missing-forwarder one, because
the forwarder check precedes query validation. -/
theorem forwarder_check_precedes_query_validation {S : Type}
    (ctx : ClientPluginContext)
    (hsub : ctx.operation.type = OpType.subscription)
    (hq : normalizeQuery ctx.operation.query = "") :
    (subscriptionsHandlerPlugin (none : Option (SubscriptionForwarder S))
        ctx).raised = some configurationErrorMessage
    ∧ configurationErrorMessage ≠ validationErrorMessage := by
  refine ⟨?_, by decide⟩
  simp [subscriptionsHandlerPlugin, hsub]

/-- Witness for C9: an empty-query subscription with no forwarder raises the
missing-forwarder error. -/
theorem forwarder_check_precedes_query_validation_witness :
    normalizeQuery "" = ""
    ∧ (subscriptionsHandlerPlugin (none : Option (SubscriptionForwarder Nat))
        ⟨⟨0, OpType.subscription, "", [], CachePolicy.networkOnly, []⟩,
         []⟩).raised = some configurationErrorMessage :=
  ⟨rfl,
   (forwarder_check_precedes_query_validation
     ⟨⟨0, OpType.subscription, "", [], CachePolicy.networkOnly, []⟩, []⟩
     rfl rfl).1⟩

/-- C10: the handler is deterministic and stateless — its outcome is a pure
function of the captured forwarder and the dispatched operation, so two
invocations on contexts carrying equal operations (whatever the rest of the
context holds) produce identical outcomes: in particular they either raise the
same error or call the forwarder with equal argument operations. -/
theorem handler_depends_only_on_operation {S : Type}
    (forward : Option (SubscriptionForwarder S))
    (ctx₁ ctx₂ : ClientPluginContext)
    (h : ctx₁.operation = ctx₂.operation) :
    subscriptionsHandlerPlugin forward ctx₁ = subscriptionsHandlerPlugin forward ctx₂ := by
  unfold subscriptionsHandlerPlugin
  rw [h]

/-- Witness for C10: two contexts sharing an operation but differing in request
context produce the same outcome. -/
theorem handler_depends_only_on_operation_witness :
    subscriptionsHandlerPlugin (some (fun op => op.key))
      ⟨⟨5, OpType.subscription, "subscription S", [], CachePolicy.networkOnly, []⟩,
       [("h", "1")]⟩
    = subscriptionsHandlerPlugin (some (fun op => op.key))
      ⟨⟨5, OpType.subscription, "subscription S", [], CachePolicy.networkOnly, []⟩,
       [("h", "2")]⟩ :=
  handler_depends_only_on_operation (some (fun op => op.key))
    ⟨⟨5, OpType.subscription, "subscription S", [], CachePolicy.networkOnly, []⟩,
     [("h", "1")]⟩
    ⟨⟨5, OpType.subscription, "subscription S", [], CachePolicy.networkOnly, []⟩,
     [("h", "2")]⟩ rfl

/-- C6: while paused, an incoming forwarder message never changes the
aggregated value; with the pause off (and no unsubscribe) a message folds into
the value through the reducer; pausing and resuming alone never unsubscribe the
underlying stream — over a whole trace of pause/resume events both the value
and the subscription status are untouched. -/
theorem pause_resume_semantics {D R : Type} (reduce : Option D → R → D)
    (s : SubscriptionState D) (m : R) (events : List (SubscriptionEvent R)) :
    (s.paused = true → (subscriptionStep reduce s (SubscriptionEvent.message m)).data = s.data)
    ∧ (s.paused = false → s.unsubscribed = false →
        (subscriptionStep reduce s (SubscriptionEvent.message m)).data =
          some (reduce s.data m))
    ∧ (subscriptionStep reduce s SubscriptionEvent.pause).unsubscribed = s.unsubscribed
    ∧ (subscriptionStep reduce s SubscriptionEvent.resume).unsubscribed = s.unsubscribed
    ∧ (subscriptionStep reduce s SubscriptionEvent.resume).paused = false
    ∧ ((∀ e ∈ events, e = SubscriptionEvent.pause ∨ e = SubscriptionEvent.resume) →
        (subscriptionRun reduce s events).data = s.data
        ∧ (subscriptionRun reduce s events).unsubscribed = s.unsubscribed) := by
  refine ⟨?_, ?_, ?_, ?_, ?_, ?_⟩
  · intro hp
    by_cases hu : s.unsubscribed <;> simp [subscriptionStep, hp, hu]
  · intro hp hu
    simp [subscriptionStep, hp, hu]
  · simp [subscriptionStep]
  · simp [subscriptionStep]
  · simp [subscriptionStep]
  · exact subscriptionRun_pause_resume_aux reduce events s

/-- Witness for C6: a concrete paused state ignores a message, and a concrete
pause/resume trace leaves value and subscription status unchanged. -/
theorem pause_resume_semantics_witness :
    ((true : Bool) = true
      ∧ (subscriptionStep (fun o r => o.getD 0 + r)
          ⟨some 10, true, false⟩ (SubscriptionEvent.message 5)).data = some 10)
    ∧ ((∀ e ∈ [SubscriptionEvent.pause, SubscriptionEvent.resume,
                SubscriptionEvent.pause],
          e = SubscriptionEvent.pause ∨ e = (SubscriptionEvent.resume : SubscriptionEvent Nat))
      ∧ (subscriptionRun (fun o r => o.getD 0 + r) ⟨some 10, true, false⟩
          [SubscriptionEvent.pause, SubscriptionEvent.resume,
           SubscriptionEvent.pause]).data = some 10) :=
  ⟨⟨rfl,
    (pause_resume_semantics (fun o r => o.getD 0 + r)
      ⟨some 10, true, false⟩ 5 []).1 rfl⟩,
   ⟨by decide,
    ((pause_resume_semantics (fun o r => o.getD 0 + r)
      ⟨some 10, true, false⟩ 5
      [SubscriptionEvent.pause, SubscriptionEvent.resume,
       SubscriptionEvent.pause]).2.2.2.2.2 (by decide)).1⟩⟩

/- ## Fingerprint development: canonical serialization respects deep equality -/

theorem lookupKey_mem {k : String} {v : JsonVal} :
    ∀ {l : List (String × JsonVal)}, lookupKey k l = some v → (k, v) ∈ l := by
  intro l
  induction l with
  | nil => intro h; simp [lookupKey] at h
  | cons p rest ih =>
    obtain ⟨k', w⟩ := p
    intro h
    rw [lookupKey] at h
    by_cases hk : k = k'
    · rw [if_pos hk] at h
      cases h
      subst hk
      exact List.mem_cons_self _ _
    · rw [if_neg hk] at h
      exact List.mem_cons_of_mem _ (ih h)

theorem nodupKeysB_nodup : ∀ {l}, nodupKeysB l = true → (keysOf l).Nodup := by
  intro l
  induction l with
  | nil => intro _; simp [keysOf]
  | cons p rest ih =>
    intro h
    simp only [nodupKeysB, Bool.and_eq_true, List.all_eq_true] at h
    obtain ⟨h1, h2⟩ := h
    simp only [keysOf, List.map_cons, List.nodup_cons]
    refine ⟨?_, ih h2⟩
    intro hmem
    obtain ⟨q, hq, hq1⟩ := List.mem_map.mp hmem
    have hb := h1 q hq
    simp [hq1] at hb

theorem keysOf_canonFields : ∀ l, keysOf (canonFields l) = keysOf l := by
  intro l
  induction l with
  | nil => simp [canonFields]
  | cons p rest ih =>
    obtain ⟨k, v⟩ := p
    simp only [canonFields, keysOf, List.map_cons] at ih ⊢
    rw [ih]

theorem length_canonFields : ∀ l, (canonFields l).length = l.length := by
  intro l
  induction l with
  | nil => simp [canonFields]
  | cons p rest ih =>
    obtain ⟨k, v⟩ := p
    simp only [canonFields, List.length_cons]
    rw [ih]

theorem lookupKey_canonFields (k : String) :
    ∀ l, lookupKey k (canonFields l) = (lookupKey k l).map canon := by
  intro l
  induction l with
  | nil => simp [canonFields, lookupKey]
  | cons p rest ih =>
    obtain ⟨k', v⟩ := p
    by_cases hk : k = k' <;> simp [canonFields, lookupKey, hk, ih]

theorem mem_canonFields :
    ∀ {p : String × JsonVal} {l}, p ∈ canonFields l →
      ∃ k v, (k, v) ∈ l ∧ p = (k, canon v) := by
  intro p l
  induction l with
  | nil => intro h; simp [canonFields] at h
  | cons q rest ih =>
    obtain ⟨k', v'⟩ := q
    intro h
    simp only [canonFields, List.mem_cons] at h
    rcases h with h | h
    · exact ⟨k', v', List.mem_cons_self _ _, h⟩
    · obtain ⟨k, v, hkv, hp⟩ := ih h
      exact ⟨k, v, List.mem_cons_of_mem _ hkv, hp⟩

theorem insertFieldSorted_perm (p : String × JsonVal) :
    ∀ l, List.Perm (insertFieldSorted p l) (p :: l) := by
  intro l
  induction l with
  | nil => simp [insertFieldSorted]
  | cons q rest ih =>
    rw [insertFieldSorted]
    by_cases h : p.1 ≤ q.1
    · rw [if_pos h]
    · rw [if_neg h]
      exact (ih.cons q).trans (List.Perm.swap p q rest)

theorem sortFields_perm : ∀ l, List.Perm (sortFields l) l := by
  intro l
  induction l with
  | nil => simp [sortFields]
  | cons p rest ih =>
    rw [sortFields]
    exact (insertFieldSorted_perm p (sortFields rest)).trans (ih.cons p)

theorem keysOf_insertFieldSorted_sorted (p : String × JsonVal) :
    ∀ l, List.Sorted (· ≤ ·) (keysOf l) →
      List.Sorted (· ≤ ·) (keysOf (insertFieldSorted p l)) := by
  intro l
  induction l with
  | nil => intro _; simp [insertFieldSorted, keysOf]
  | cons q rest ih =>
    intro h
    simp only [keysOf, List.map_cons] at h
    obtain ⟨hq, hrest⟩ := List.sorted_cons.mp h
    rw [insertFieldSorted]
    by_cases hle : p.1 ≤ q.1
    · rw [if_pos hle]
      simp only [keysOf, List.map_cons]
      refine List.sorted_cons.mpr ⟨?_, h⟩
      intro b hb
      rcases List.mem_cons.mp hb with rfl | hb
      · exact hle
      · exact le_trans hle (hq b hb)
    · rw [if_neg hle]
      have hqp : q.1 ≤ p.1 := le_of_not_le hle
      simp only [keysOf, List.map_cons]
      refine List.sorted_cons.mpr ⟨?_, ?_⟩
      · intro b hb
        have hperm : List.Perm (keysOf (insertFieldSorted p rest)) (keysOf (p :: rest)) :=
          (insertFieldSorted_perm p rest).map Prod.fst
        have hb' : b ∈ keysOf (p :: rest) := hperm.mem_iff.mp hb
        simp only [keysOf, List.map_cons, List.mem_cons] at hb'
        rcases hb' with rfl | hb'
        · exact hqp
        · exact hq b hb'
      · have := ih (by simpa [keysOf] using hrest)
        simpa [keysOf] using this

theorem keysOf_sortFields_sorted : ∀ l, List.Sorted (· ≤ ·) (keysOf (sortFields l)) := by
  intro l
  induction l with
  | nil => simp [sortFields, keysOf]
  | cons p rest ih =>
    rw [sortFields]
    exact keysOf_insertFieldSorted_sorted p _ ih

theorem sorted_nodupkeys_perm_eq :
    ∀ (l₁ l₂ : List (String × JsonVal)), List.Perm l₁ l₂ →
      List.Sorted (· ≤ ·) (keysOf l₁) → List.Sorted (· ≤ ·) (keysOf l₂) →
      (keysOf l₁).Nodup → l₁ = l₂ := by
  intro l₁
  induction l₁ with
  | nil =>
    intro l₂ hp _ _ _
    exact hp.nil_eq
  | cons p t₁ ih =>
    intro l₂ hp hs₁ hs₂ hnd
    cases l₂ with
    | nil =>
      have := hp.length_eq
      simp at this
    | cons q t₂ =>
      simp only [keysOf, List.map_cons] at hs₁ hs₂ hnd
      obtain ⟨hs₁h, hs₁t⟩ := List.sorted_cons.mp hs₁
      obtain ⟨hs₂h, hs₂t⟩ := List.sorted_cons.mp hs₂
      obtain ⟨hndh, hndt⟩ := List.nodup_cons.mp hnd
      have hpq : p = q := by
        by_cases hpq' : p = q
        · exact hpq'
        · exfalso
          have hpmem : p ∈ q :: t₂ := hp.mem_iff.mp (List.mem_cons_self p t₁)
          have hqmem : q ∈ p :: t₁ := hp.mem_iff.mpr (List.mem_cons_self q t₂)
          have hpt₂ : p ∈ t₂ := by
            rcases List.mem_cons.mp hpmem with h | h
            · exact absurd h hpq'
            · exact h
          have hqt₁ : q ∈ t₁ := by
            rcases List.mem_cons.mp hqmem with h | h
            · exact absurd h.symm hpq'
            · exact h
          have h1 : p.1 ≤ q.1 := hs₁h q.1 (List.mem_map_of_mem Prod.fst hqt₁)
          have h2 : q.1 ≤ p.1 := hs₂h p.1 (List.mem_map_of_mem Prod.fst hpt₂)
          have hk : p.1 = q.1 := le_antisymm h1 h2
          exact hndh (hk ▸ List.mem_map_of_mem Prod.fst hqt₁)
      subst hpq
      have ht : List.Perm t₁ t₂ := hp.cons_inv
      rw [ih t₂ ht (by simpa [keysOf] using hs₁t) (by simpa [keysOf] using hs₂t)
        (by simpa [keysOf] using hndt)]

theorem sortFields_eq_of_lookup_eq :
    ∀ (l₁ l₂ : List (String × JsonVal)),
      l₁.length = l₂.length → (keysOf l₁).Nodup → (keysOf l₂).Nodup →
      (∀ p ∈ l₁, lookupKey p.1 l₂ = some p.2) →
      sortFields l₁ = sortFields l₂ := by
  intro l₁ l₂ hlen hnd₁ hnd₂ hlk
  have hsub : l₁ ⊆ l₂ := fun p hp => lookupKey_mem (hlk p hp)
  have hnd₁' : l₁.Nodup := List.Nodup.of_map Prod.fst hnd₁
  have hsp : List.Subperm l₁ l₂ := List.subperm_of_subset hnd₁' hsub
  have hperm : List.Perm l₁ l₂ := hsp.perm_of_length_le (le_of_eq hlen.symm)
  have hperm' : List.Perm (sortFields l₁) (sortFields l₂) :=
    (sortFields_perm l₁).trans (hperm.trans (sortFields_perm l₂).symm)
  have hknd : (keysOf (sortFields l₁)).Nodup :=
    (((sortFields_perm l₁).map Prod.fst).nodup_iff).mpr hnd₁
  exact sorted_nodupkeys_perm_eq _ _ hperm'
    (keysOf_sortFields_sorted l₁) (keysOf_sortFields_sorted l₂) hknd

theorem deepEqFields_spec :
    ∀ {fs gs}, deepEqFields fs gs = true →
      ∀ p ∈ fs, ∃ w, lookupKey p.1 gs = some w ∧ deepEq p.2 w = true := by
  intro fs
  induction fs with
  | nil => intro gs _ p hp; simp at hp
  | cons q rest ih =>
    obtain ⟨k, v⟩ := q
    intro gs h p hp
    simp only [deepEqFields, Bool.and_eq_true] at h
    obtain ⟨h1, h2⟩ := h
    rcases List.mem_cons.mp hp with rfl | hp
    · cases hlk : lookupKey k gs with
      | none => rw [hlk] at h1; simp at h1
      | some w =>
        rw [hlk] at h1
        exact ⟨w, rfl, h1⟩
    · exact ih h2 p hp

theorem canonElems_eq_of_forall {xs : List JsonVal} :
    ∀ {ys : List JsonVal},
      (∀ x ∈ xs, ∀ b, deepEq x b = true → canon x = canon b) →
      deepEqElems xs ys = true → canonElems xs = canonElems ys := by
  induction xs with
  | nil =>
    intro ys _ h
    cases ys with
    | nil => rfl
    | cons y ys => simp [deepEqElems] at h
  | cons x xs ih =>
    intro ys hH h
    cases ys with
    | nil => simp [deepEqElems] at h
    | cons y ys =>
      simp only [deepEqElems, Bool.and_eq_true] at h
      obtain ⟨h1, h2⟩ := h
      have hx := hH x (List.mem_cons_self x xs) y h1
      have hxs := ih (fun x' hx' => hH x' (List.mem_cons_of_mem x hx')) h2
      simp only [canonElems]
      rw [hx, hxs]

theorem canon_eq_of_deepEq_fuel :
    ∀ (n : Nat) (a b : JsonVal), sizeOf a ≤ n → deepEq a b = true →
      canon a = canon b := by
  intro n
  induction n with
  | zero =>
    intro a b ha _
    exfalso
    cases a <;> simp_arith at ha
  | succ n ih =>
    intro a b ha hd
    cases a with
    | null => cases b <;> simp [deepEq] at hd <;> rfl
    | bool x =>
      cases b <;> simp [deepEq] at hd
      subst hd; rfl
    | num x =>
      cases b <;> simp [deepEq] at hd
      subst hd; rfl
    | str x =>
      cases b <;> simp [deepEq] at hd
      subst hd; rfl
    | arr xs =>
      cases b <;> simp only [deepEq] at hd
      case arr ys =>
        have hsz : sizeOf xs ≤ n := by
          have : sizeOf (JsonVal.arr xs) = 1 + sizeOf xs := by simp
          omega
        have hstep : canonElems xs = canonElems ys := by
          refine canonElems_eq_of_forall ?_ hd
          intro x hx b hdb
          have hx' : sizeOf x < sizeOf xs := List.sizeOf_lt_of_mem hx
          exact ih x b (by omega) hdb
        simp only [canon]
        rw [hstep]
      all_goals simp at hd
    | obj fs =>
      cases b <;> simp only [deepEq] at hd
      case obj gs =>
        simp only [Bool.and_eq_true, beq_iff_eq] at hd
        obtain ⟨⟨⟨hlen, hnd1⟩, hnd2⟩, hfld⟩ := hd
        have hszf : sizeOf fs ≤ n := by
          have : sizeOf (JsonVal.obj fs) = 1 + sizeOf fs := by simp
          omega
        have key : sortFields (canonFields fs) = sortFields (canonFields gs) := by
          apply sortFields_eq_of_lookup_eq
          · rw [length_canonFields, length_canonFields, hlen]
          · rw [keysOf_canonFields]; exact nodupKeysB_nodup hnd1
          · rw [keysOf_canonFields]; exact nodupKeysB_nodup hnd2
          · intro p hp
            obtain ⟨k, v, hkv, rfl⟩ := mem_canonFields hp
            obtain ⟨w, hw, hdw⟩ := deepEqFields_spec hfld (k, v) hkv
            have hszv : sizeOf v ≤ n := by
              have h1 := List.sizeOf_lt_of_mem hkv
              have h2 : sizeOf (k, v) = 1 + sizeOf k + sizeOf v := by simp
              omega
            have hcv : canon v = canon w := ih v w hszv hdw
            rw [lookupKey_canonFields, hw]
            simp [hcv]
        simp only [canon]
        rw [key]
      all_goals simp at hd

theorem canon_eq_of_deepEq {a b : JsonVal} (h : deepEq a b = true) :
    canon a = canon b :=
  canon_eq_of_deepEq_fuel (sizeOf a) a b (le_refl _) h

/-- C5: two operations with equal normalized query text and deep-equal
variables — whatever the insertion order of keys in the variables mapping, at
any depth — have equal fingerprints. -/
theorem fingerprint_respects_variable_key_order (op₁ op₂ : Operation)
    (hq : normalizeQuery op₁.query = normalizeQuery op₂.query)
    (hv : variablesDeepEq op₁.vars op₂.vars = true) :
    fingerprint op₁ = fingerprint op₂ := by
  have hc : canon (JsonVal.obj op₁.vars) = canon (JsonVal.obj op₂.vars) :=
    canon_eq_of_deepEq hv
  unfold fingerprint serializeVariables
  rw [hq, hc]

/-- Witness for C5: whitespace-differing query texts with identical
normalization and variables mappings that differ in key insertion order, both
at the top level and inside a nested object, share a fingerprint. -/
theorem fingerprint_respects_variable_key_order_witness :
    normalizeQuery "query  FetchTodo" = normalizeQuery "query FetchTodo"
    ∧ variablesDeepEq
        [("id", JsonVal.num 1),
         ("filter", JsonVal.obj [("a", JsonVal.num 1), ("b", JsonVal.bool true)])]
        [("filter", JsonVal.obj [("b", JsonVal.bool true), ("a", JsonVal.num 1)]),
         ("id", JsonVal.num 1)] = true
    ∧ fingerprint
        ⟨0, OpType.query, "query  FetchTodo",
         [("id", JsonVal.num 1),
          ("filter", JsonVal.obj [("a", JsonVal.num 1), ("b", JsonVal.bool true)])],
         CachePolicy.cacheFirst, []⟩
      = fingerprint
        ⟨0, OpType.query, "query FetchTodo",
         [("filter", JsonVal.obj [("b", JsonVal.bool true), ("a", JsonVal.num 1)]),
          ("id", JsonVal.num 1)],
         CachePolicy.cacheOnly, ["todos"]⟩ :=
  ⟨by decide, by decide,
   fingerprint_respects_variable_key_order
     ⟨0, OpType.query, "query  FetchTodo",
      [("id", JsonVal.num 1),
       ("filter", JsonVal.obj [("a", JsonVal.num 1), ("b", JsonVal.bool true)])],
      CachePolicy.cacheFirst, []⟩
     ⟨0, OpType.query, "query FetchTodo",
      [("filter", JsonVal.obj [("b", JsonVal.bool true), ("a", JsonVal.num 1)]),
       ("id", JsonVal.num 1)],
      CachePolicy.cacheOnly, ["todos"]⟩
     (by decide) (by decide)⟩
